import Mathlib

/-!
A shallow embedding of `src/miniarrow.py` (class `MiniQueryEngine`), a small
in-memory query engine whose table operations delegate to the Arrow compute
library (`pyarrow`).  The engine state `self.tables` is passed explicitly as a
`Store`; Python exceptions become `Except Err`; `pyarrow` kernels (type
inference, compare, filter, stable sort, hash join, hash aggregation) are
modelled by their observable single-threaded semantics.  Float64 values are
modelled as exact rationals: the source never exercises NaN, infinities or
rounding, and only ordering and equality of floats matter here.
-/

namespace MiniArrow

/-- A cell value of one of the four element types the engine stores. -/
inductive Value where
  | int (n : Int)
  | float (q : ℚ)
  | str (s : String)
  | bool (b : Bool)
deriving DecidableEq

/-- Arrow column dtypes produced by `pa.Table.from_pydict` type inference:
the four value dtypes plus `null`, the dtype Arrow infers for an empty
Python list. -/
inductive DType where
  | int64
  | float64
  | utf8
  | boolean
  | null
deriving DecidableEq

/-- Failure conditions of `MiniQueryEngine`, by the condition detected rather
than the Python exception class.  `notFound` covers the `ValueError`s raised
for a missing table or column as well as the Arrow `KeyError` raised when a
sort / join / group key names no column.  `arrowUnsupportedJoinType` is the
`ValueError` raised inside `pyarrow` (`HashJoinNodeOptions`) for a join-type
string Arrow does not know, as opposed to `unsupportedJoinType` raised by the
guard inside `join_tables` itself.  `unmodelled` marks Arrow join types
(semi/anti/left outer/right outer) that `join_tables`'s guard can never pass
through and whose semantics are therefore not modelled. -/
inductive Err where
  | notFound
  | invalidArgument
  | typeMismatch
  | unsupportedOperator
  | unsupportedFunction
  | unsupportedJoinType
  | arrowUnsupportedJoinType
  | keyArityMismatch
  | unmodelled
deriving DecidableEq

/-- An Arrow column: its dtype and its cell values. -/
structure Column where
  dtype : DType
  vals : List Value
deriving DecidableEq

/-- A table: insertion-ordered mapping from column name to column. -/
abbrev Table := List (String × Column)

/-- The engine state `self.tables`: mapping from table name to table. -/
abbrev Store := List (String × Table)

/-- `Table.to_pydict()` output for null-free results: column name to values. -/
abbrev PyDict := List (String × List Value)

/-- `Table.to_pydict()` output of a join, whose cells may be null (`none`). -/
abbrev JDict := List (String × List (Option Value))

/-- Association-list lookup (Python `d[k]` / `k in d`), first match. -/
def lookupA : List (String × α) → String → Option α
  | [], _ => none
  | p :: ps, k => if p.1 = k then some p.2 else lookupA ps k

/-- Python dict assignment `d[k] = v`: an existing key keeps its position and
has its value replaced, a new key is appended. -/
def updateA (l : List (String × α)) (k : String) (v : α) : List (String × α) :=
  if (lookupA l k).isSome then
    l.map (fun p => if p.1 = k then (k, v) else p)
  else l ++ [(k, v)]

/-- The dtype `pa.array` infers for a single Python scalar. -/
def dtypeOfValue : Value → DType
  | .int _ => .int64
  | .float _ => .float64
  | .str _ => .utf8
  | .bool _ => .boolean

def isNumeric : DType → Bool
  | .int64 => true
  | .float64 => true
  | _ => false

/-- `pa.array` type inference over a Python list: an empty list infers the
`null` dtype, a homogeneous list infers its element dtype, a mix of integers
and floats infers float64, and any other mix fails. -/
def inferDType (vs : List Value) : Except Err DType :=
  match vs with
  | [] => .ok .null
  | v :: rest =>
    if rest.all (fun w => dtypeOfValue w = dtypeOfValue v) then .ok (dtypeOfValue v)
    else if (v :: rest).all (fun w => isNumeric (dtypeOfValue w)) then .ok .float64
    else .error .typeMismatch

/-- Conversion applied while building an Arrow column: integers put into a
float64 column become floats; every other case keeps the value. -/
def coerceTo (d : DType) (v : Value) : Value :=
  match d, v with
  | .float64, .int n => .float (n : ℚ)
  | _, w => w

/-- Build one Arrow column from a Python list (`pa.array`). -/
def mkColumn (vs : List Value) : Except Err Column :=
  match inferDType vs with
  | .error e => .error e
  | .ok d => .ok ⟨d, vs.map (coerceTo d)⟩

/-- Sequence a fallible function over a list, stopping at the first error. -/
def exceptMap (f : α → Except Err β) : List α → Except Err (List β)
  | [] => .ok []
  | x :: xs =>
    match f x with
    | .error e => .error e
    | .ok y =>
      match exceptMap f xs with
      | .error e => .error e
      | .ok ys => .ok (y :: ys)

/-- `pa.Table.from_pydict`. -/
def tableOfPydict (d : PyDict) : Except Err Table :=
  exceptMap (fun p =>
    match mkColumn p.2 with
    | .error e => .error e
    | .ok c => .ok (p.1, c)) d

/-- The `len(lengths) > 1` check of `create_table`. -/
def sameLengths : PyDict → Bool
  | [] => true
  | p :: ps => ps.all (fun q => q.2.length = p.2.length)

/-- `MiniQueryEngine.create_table`: validates the name, that the data mapping
is non-empty and that all columns have one length, then builds the Arrow
table and registers it under `name` in `self.tables` (line 42 of the source:
`self.tables[name] = pa.Table.from_pydict(data)`). -/
def create_table (s : Store) (name : String) (data : PyDict) : Except Err Store :=
  if name = "" then .error .invalidArgument
  else if data.isEmpty then .error .invalidArgument
  else if ¬ sameLengths data then .error .typeMismatch
  else
    match tableOfPydict data with
    | .error e => .error e
    | .ok t => .ok (updateA s name t)

/-- The six comparison operators of `filter_table`. -/
inductive CmpOp where
  | eq | ne | lt | le | gt | ge
deriving DecidableEq

/-- The `conditions` dispatch dict of `filter_table`. -/
def condOp : String → Option CmpOp
  | "==" => some .eq
  | ">" => some .gt
  | "<" => some .lt
  | ">=" => some .ge
  | "<=" => some .le
  | "!=" => some .ne
  | _ => none

/-- Arrow compare kernels (`pc.equal` and friends): numeric compare across
int64/float64 (the kernel casts), string compare by code point, boolean
compare with false < true; any other pairing has no kernel. -/
def arrowCmp : Value → Value → Option Ordering
  | .int a, .int b => some (compare a b)
  | .int a, .float b => some (compare (a : ℚ) b)
  | .float a, .int b => some (compare a (b : ℚ))
  | .float a, .float b => some (compare a b)
  | .str a, .str b => some (compare a b)
  | .bool a, .bool b => some (compare a b)
  | _, _ => none

/-- Element-wise evaluation of one comparison operator against the probe
value.  The `none` branch is never reached on the checked paths: the value
was validated against the column dtype first. -/
def applyCmp (op : CmpOp) (x v : Value) : Bool :=
  match arrowCmp x v with
  | none => false
  | some o =>
    match op, o with
    | .eq, .eq => true
    | .ne, .lt => true
    | .ne, .gt => true
    | .lt, .lt => true
    | .le, .lt => true
    | .le, .eq => true
    | .gt, .gt => true
    | .ge, .gt => true
    | .ge, .eq => true
    | _, _ => false

/-- The `pa.array([value], type=column.type)` validation of `filter_table`:
which single Python scalars Arrow accepts for a column dtype.  A float is
accepted for int64 only when it is integral (safe cast). -/
def valCompat (v : Value) (d : DType) : Bool :=
  match v, d with
  | .int _, .int64 => true
  | .int _, .float64 => true
  | .float q, .int64 => q.den = 1
  | .float _, .float64 => true
  | .str _, .utf8 => true
  | .bool _, .boolean => true
  | _, _ => false

/-- `Table.filter(mask)`: keep the entries at the positions where the mask is
true, preserving order. -/
def filterByMask : List Bool → List α → List α
  | b :: bs, x :: xs => if b then x :: filterByMask bs xs else filterByMask bs xs
  | _, _ => []

/-- The body of `filter_table` once the table was found: column lookup, value
type validation, condition dispatch, mask evaluation, `table.filter(mask)`
and `to_pydict()`.  Column names of a registered table are unique, so
`to_pydict` is the identity reshaping here. -/
def filterT (t : Table) (cn cond : String) (v : Value) : Except Err PyDict :=
  match lookupA t cn with
  | none => .error .notFound
  | some col =>
    if ¬ valCompat v col.dtype then .error .typeMismatch
    else
      match condOp cond with
      | none => .error .unsupportedOperator
      | some op =>
        let mask := col.vals.map (fun x => applyCmp op x v)
        .ok (t.map (fun p => (p.1, filterByMask mask p.2.vals)))

/-- `MiniQueryEngine.filter_table`. -/
def filter_table (s : Store) (tn cn cond : String) (v : Value) : Except Err PyDict :=
  match lookupA s tn with
  | none => .error .notFound
  | some t => filterT t cn cond v

/-- Sum of an int64 column (`pc.sum`). -/
def sumInt (vs : List Value) : Int :=
  (vs.map (fun v => match v with | .int n => n | _ => 0)).sum

/-- Sum of a numeric column read as rationals. -/
def sumQ (vs : List Value) : ℚ :=
  (vs.map (fun v => match v with | .int n => (n : ℚ) | .float q => q | _ => 0)).sum

/-- `pc.sum` over a non-empty numeric column: int64 stays integral, float64
sums as double. -/
def sumVal (d : DType) (vs : List Value) : Value :=
  match d with
  | .int64 => .int (sumInt vs)
  | _ => .float (sumQ vs)

/-- `pc.mean`: always a floating-point result. -/
def meanVal (vs : List Value) : Value :=
  .float (sumQ vs / (vs.length : ℚ))

/-- Rank used to keep the modelled Arrow ordering total across constructors;
Arrow itself only ever orders values within one column dtype. -/
def vrank : Value → Nat
  | .int _ => 0
  | .float _ => 1
  | .str _ => 2
  | .bool _ => 3

/-- The total order behind Arrow's ordering kernels (`sort_indices`,
`min_max`): numeric order, code-point lexicographic order on strings,
false < true on booleans.  Cross-dtype pairs (never compared by Arrow,
since a column is homogeneous) are ordered by constructor rank so the
order stays total. -/
def vle (a b : Value) : Bool :=
  match a, b with
  | .int x, .int y => decide (x ≤ y)
  | .float x, .float y => decide (x ≤ y)
  | .str x, .str y => decide (x ≤ y)
  | .bool x, .bool y => decide (x ≤ y)
  | x, y => decide (vrank x ≤ vrank y)

/-- `pc.min`: null (`none`) on an empty column, else the least value. -/
def minVal (vs : List Value) : Option Value :=
  match vs with
  | [] => none
  | v :: rest => some (rest.foldl (fun a b => if vle b a then b else a) v)

/-- `pc.max`: null (`none`) on an empty column, else the greatest value. -/
def maxVal (vs : List Value) : Option Value :=
  match vs with
  | [] => none
  | v :: rest => some (rest.foldl (fun a b => if vle a b then b else a) v)

/-- `MiniQueryEngine.aggregate_table`: table and column lookup, the
`functions` dispatch dict, the numeric gate for sum/mean, then the Arrow
reduction.  `pc.sum`/`pc.mean`/`pc.min`/`pc.max` of an empty column are null
(`as_py()` returns `None`, modelled `none`); `count` is `len(col)`. -/
def aggregate_table (s : Store) (tn cn fn : String) : Except Err (Option Value) :=
  match lookupA s tn with
  | none => .error .notFound
  | some t =>
    match lookupA t cn with
    | none => .error .notFound
    | some col =>
      if ¬ (["sum", "mean", "min", "max", "count"].contains fn) then
        .error .unsupportedFunction
      else if (fn = "sum" ∨ fn = "mean") ∧ ¬ isNumeric col.dtype then
        .error .typeMismatch
      else if fn = "sum" then
        .ok (if col.vals.isEmpty then none else some (sumVal col.dtype col.vals))
      else if fn = "mean" then
        .ok (if col.vals.isEmpty then none else some (meanVal col.vals))
      else if fn = "min" then .ok (minVal col.vals)
      else if fn = "max" then .ok (maxVal col.vals)
      else .ok (some (.int col.vals.length))

/-- Order on key-indexed cells realising a stable sort: cells are ordered by
the key order `le`, ties by original position.  `pyarrow`'s `sort_indices`
documents its output as a stable sort permutation, which this order computes
directly. -/
def pairRel (le : Value → Value → Bool) (p q : Nat × Value) : Prop :=
  le p.2 q.2 = true ∧ (le q.2 p.2 = true → p.1 ≤ q.1)

instance (le : Value → Value → Bool) : DecidableRel (pairRel le) := fun p q => by
  unfold pairRel
  infer_instance

/-- The key order used by `sort_table` for a direction: `vle` ascending,
flipped `vle` descending. -/
def dirLe (asc : Bool) : Value → Value → Bool :=
  if asc then vle else fun a b => vle b a

/-- The stable argsort of `Table.sort_by`: index every key cell with its row
position and sort. -/
def sortPairs (le : Value → Value → Bool) (key : List Value) : List (Nat × Value) :=
  List.insertionSort (pairRel le) key.enum

/-- `MiniQueryEngine.sort_table`: table lookup (`ValueError` when absent),
then `table.sort_by([(column_name, order)])`, which raises Arrow's
`KeyError` (modelled `notFound`) for a missing sort key and otherwise takes
each column at the stable sort permutation of the key column. -/
def sort_table (s : Store) (tn cn : String) (asc : Bool) : Except Err PyDict :=
  match lookupA s tn with
  | none => .error .notFound
  | some t =>
    match lookupA t cn with
    | none => .error .notFound
    | some kc =>
      let perm := (sortPairs (dirLe asc) kc.vals).map Prod.fst
      .ok (t.map (fun p => (p.1, perm.map (fun i => p.2.vals.getD i (.int 0)))))

/-- The serial hash grouper of Arrow's aggregation node walks the rows in
order and opens a new group whenever a key has not been seen yet; `seen`
accumulates the keys already assigned a group id. -/
def firstOccurAux (seen : List Value) : List Value → List Value
  | [] => []
  | v :: rest =>
    if v ∈ seen then firstOccurAux seen rest
    else v :: firstOccurAux (v :: seen) rest

/-- Distinct values in order of first occurrence: the group-id order of
Arrow's serial hash grouper, which assigns group ids as keys first appear. -/
def firstOccur (l : List Value) : List Value := firstOccurAux [] l

/-- The aggregation-column cells of the rows whose group cell equals `k`. -/
def selectBy (gvs avs : List Value) (k : Value) : List Value :=
  ((gvs.zip avs).filter (fun q => decide (q.1 = k))).map Prod.snd

/-- One hash-aggregate kernel application on one group's cells.  Groups are
never empty (each key comes from a row), so the min/max `none` branches are
unreachable.  `hash_sum`/`hash_mean` on a non-numeric column is an Arrow
error, modelled `typeMismatch`. -/
def aggOf (fn : String) (d : DType) (vs : List Value) : Except Err Value :=
  match fn with
  | "sum" => if isNumeric d then .ok (sumVal d vs) else .error .typeMismatch
  | "mean" => if isNumeric d then .ok (meanVal vs) else .error .typeMismatch
  | "min" =>
    match minVal vs with
    | some v => .ok v
    | none => .error .unmodelled
  | "max" =>
    match maxVal vs with
    | some v => .ok v
    | none => .error .unmodelled
  | _ => .ok (.int vs.length)

/-- `TableGroupBy.aggregate` names the aggregated output column
`f"{column}_{function}"`. -/
def aggName (ac fn : String) : String := ac ++ "_" ++ fn

/-- `MiniQueryEngine.group_by`: table lookup, the agg-function membership
check, then `table.group_by(group_column).aggregate([(agg_column,
agg_func)])`: one output row per distinct key, in first-occurrence order,
with the key column keeping its name and the aggregate column renamed by
`aggName`. -/
def group_by (s : Store) (tn gc ac fn : String) : Except Err PyDict :=
  match lookupA s tn with
  | none => .error .notFound
  | some t =>
    if ¬ (["sum", "mean", "min", "max", "count"].contains fn) then
      .error .unsupportedFunction
    else
      match lookupA t gc, lookupA t ac with
      | some gcol, some acol =>
        let keys := firstOccur gcol.vals
        match exceptMap (fun k => aggOf fn acol.dtype (selectBy gcol.vals acol.vals k)) keys with
        | .error e => .error e
        | .ok aggs => .ok [(gc, keys), (aggName ac fn, aggs)]
      | _, _ => .error .notFound

/-- Number of rows of a table (every registered table is rectangular). -/
def rowCount : Table → Nat
  | [] => 0
  | p :: _ => p.2.vals.length

/-- The join-type strings `pyarrow`'s `HashJoinNodeOptions` accepts; anything
else raises `ValueError("Unsupported join type")` inside `pyarrow`. -/
def arrowJoinTypes : List String :=
  ["left semi", "right semi", "left anti", "right anti", "inner", "left outer",
    "right outer", "full outer"]

/-- The composite key of row `i` under key columns `ks`. -/
def rowKey (t : Table) (ks : List String) (i : Nat) : List Value :=
  ks.map (fun k =>
    match lookupA t k with
    | some c => c.vals.getD i (.int 0)
    | none => .int 0)

/-- The matched row-index pairs of the hash join in serial (single-threaded)
acero order: every left row in order, one output per matching right row in
right-row order; for a full outer join a left row without matches yields a
null right side, and right rows matched by no left row are appended at the
end in right-row order with a null left side. -/
def joinPairs (l r : Table) (lk rk : List String) (jt : String) :
    List (Option Nat × Option Nat) :=
  let ln := rowCount l
  let rn := rowCount r
  let lkey := rowKey l lk
  let rkey := rowKey r rk
  let ms := fun i => (List.range rn).filter (fun j => decide (rkey j = lkey i))
  if jt = "inner" then
    (List.range ln).flatMap (fun i => (ms i).map (fun j => (some i, some j)))
  else
    ((List.range ln).flatMap (fun i =>
      match ms i with
      | [] => [(some i, none)]
      | js => js.map (fun j => (some i, some j)))) ++
    (((List.range rn).filter (fun j =>
        (List.range ln).all (fun i => decide (¬ lkey i = rkey j)))).map
      (fun j => ((none : Option Nat), some j)))

/-- Read the cell of column `c` selected by an optional row index. -/
def cellAt (c : Column) (oi : Option Nat) : Option Value :=
  oi.map (fun i => c.vals.getD i (.int 0))

/-- `pa.Table.join` with the default `coalesce_keys=True` and no suffixes, as
`join_tables` calls it: validate the join type string, that every key names a
column, and that corresponding key dtypes match; output the left columns in
order (key columns coalesced with the right key for full outer), then the
right non-key columns in order, under their unchanged names. -/
def paJoin (l r : Table) (lk rk : List String) (jt : String) : Except Err JDict :=
  if ¬ arrowJoinTypes.contains jt then .error .arrowUnsupportedJoinType
  else if ¬ (lk.all (fun k => (lookupA l k).isSome) &&
      rk.all (fun k => (lookupA r k).isSome)) then .error .notFound
  else if ¬ ((lk.zip rk).all (fun p =>
      match lookupA l p.1, lookupA r p.2 with
      | some c1, some c2 => decide (c1.dtype = c2.dtype)
      | _, _ => true)) then .error .typeMismatch
  else if jt = "inner" ∨ jt = "full outer" then
    let pairs := joinPairs l r lk rk jt
    let leftCols := l.map (fun p =>
      (p.1,
        match lk.findIdx? (fun k => decide (k = p.1)) with
        | some q =>
          let rcol := (rk[q]?).bind (fun kk => lookupA r kk)
          pairs.map (fun pr =>
            match pr.1 with
            | some i => some (p.2.vals.getD i (.int 0))
            | none =>
              match rcol with
              | some c => cellAt c pr.2
              | none => none)
        | none => pairs.map (fun pr => cellAt p.2 pr.1)))
    let rightCols := (r.filter (fun p => decide (¬ p.1 ∈ rk))).map
      (fun p => (p.1, pairs.map (fun pr => cellAt p.2 pr.2)))
    .ok (leftCols ++ rightCols)
  else .error .unmodelled

/-- `Table.to_pydict()` on a join result: Python dict construction collapses
duplicate column names, with the later column's values winning while the key
keeps its first position. -/
def joinToDict (j : JDict) : JDict :=
  j.foldl (fun acc p => updateA acc p.1 p.2) []

/-- `MiniQueryEngine.join_tables`: both tables must exist, the key lists must
have one length, and the join type must pass the guard list
`["inner", "left", "right", "full outer"]` before `pa.Table.join` runs. -/
def join_tables (s : Store) (lt rt : String) (lk rk : List String) (jt : String) :
    Except Err JDict :=
  match lookupA s lt, lookupA s rt with
  | some l, some r =>
    if lk.length ≠ rk.length then .error .keyArityMismatch
    else if ¬ (["inner", "left", "right", "full outer"].contains jt) then
      .error .unsupportedJoinType
    else (paJoin l r lk rk jt).map joinToDict
  | _, _ => .error .notFound

/-- A column is well typed: every cell carries the column dtype (for the
`null` dtype this forces the column to be empty, since no cell has it). -/
def colWf (c : Column) : Prop :=
  ∀ v ∈ c.vals, dtypeOfValue v = c.dtype

/-- Invariants of every table the engine can register: unique column names,
well-typed columns, and one common length. -/
def TableWf (t : Table) : Prop :=
  (t.map Prod.fst).Nodup ∧ (∀ p ∈ t, colWf p.2) ∧ ∀ p ∈ t, p.2.vals.length = rowCount t

instance (c : Column) : Decidable (colWf c) := by
  unfold colWf
  infer_instance

instance (t : Table) : Decidable (TableWf t) := by
  unfold TableWf colWf
  infer_instance

/-! ### Association-list lemmas (Python dict semantics) -/

theorem lookupA_append (l m : List (String × α)) (k : String) :
    lookupA (l ++ m) k =
      match lookupA l k with
      | some v => some v
      | none => lookupA m k := by
  induction l with
  | nil => simp [lookupA]
  | cons p ps ih => by_cases h : p.1 = k <;> simp [lookupA, h, ih]

theorem lookupA_map_replace (l : List (String × α)) (k : String) (v : α) :
    lookupA (l.map (fun p => if p.1 = k then (k, v) else p)) k =
      if (lookupA l k).isSome then some v else none := by
  induction l with
  | nil => simp [lookupA]
  | cons p ps ih =>
    by_cases h : p.1 = k
    · simp [lookupA, h]
    · simp [lookupA, h, ih]

theorem lookupA_map_replace_ne (l : List (String × α)) (k k2 : String) (v : α)
    (h : k2 ≠ k) :
    lookupA (l.map (fun p => if p.1 = k then (k, v) else p)) k2 = lookupA l k2 := by
  induction l with
  | nil => rfl
  | cons p ps ih =>
    by_cases hp : p.1 = k
    · simp [lookupA, hp, Ne.symm h, ih]
    · by_cases hp2 : p.1 = k2 <;> simp [lookupA, hp, hp2, h, ih]

theorem lookupA_updateA_self (l : List (String × α)) (k : String) (v : α) :
    lookupA (updateA l k v) k = some v := by
  unfold updateA
  by_cases h : (lookupA l k).isSome
  · simp [h, lookupA_map_replace]
  · rw [if_neg h, lookupA_append]
    rw [Option.not_isSome_iff_eq_none] at h
    simp [h, lookupA]

theorem lookupA_updateA_ne (l : List (String × α)) (k k2 : String) (v : α)
    (h : k2 ≠ k) : lookupA (updateA l k v) k2 = lookupA l k2 := by
  unfold updateA
  by_cases hs : (lookupA l k).isSome
  · simp [hs, lookupA_map_replace_ne l k k2 v h]
  · rw [if_neg hs, lookupA_append]
    cases hl : lookupA l k2 <;> simp [lookupA, Ne.symm h]

theorem mem_of_lookupA {l : List (String × α)} {k : String} {v : α}
    (h : lookupA l k = some v) : (k, v) ∈ l := by
  induction l with
  | nil => simp [lookupA] at h
  | cons p ps ih =>
    by_cases hp : p.1 = k
    · simp only [lookupA, hp, if_true, Option.some.injEq] at h
      exact List.mem_cons.mpr (Or.inl (by rw [← hp, ← h]))
    · simp only [lookupA, hp, if_false] at h
      exact List.mem_cons_of_mem _ (ih h)

theorem lookupA_map_snd (l : List (String × α)) (g : α → β) (k : String) :
    lookupA (l.map (fun p => (p.1, g p.2))) k = (lookupA l k).map g := by
  induction l with
  | nil => rfl
  | cons p ps ih => by_cases hp : p.1 = k <;> simp [lookupA, hp, ih]

/-! ### filterByMask lemmas (`Table.filter`) -/

theorem filterByMask_map_self (p : α → Bool) :
    ∀ xs : List α, filterByMask (xs.map p) xs = xs.filter p := by
  intro xs
  induction xs with
  | nil => rfl
  | cons x xs ih =>
    by_cases h : p x <;> simp [filterByMask, List.filter_cons, h, ih]

theorem filterByMask_sublist : ∀ (m : List Bool) (xs : List α),
    List.Sublist (filterByMask m xs) xs := by
  intro m
  induction m with
  | nil => intro xs; simp [filterByMask]
  | cons b bs ih =>
    intro xs
    cases xs with
    | nil => simp [filterByMask]
    | cons x xs =>
      cases b with
      | true => simpa [filterByMask] using (ih xs).cons₂ x
      | false => simpa [filterByMask] using (ih xs).cons x

theorem length_filterByMask (p : α → Bool) :
    ∀ (key : List α) (xs : List β), key.length = xs.length →
      (filterByMask (key.map p) xs).length = key.countP p := by
  intro key
  induction key with
  | nil => intro xs h; simp [filterByMask]
  | cons k ks ih =>
    intro xs h
    cases xs with
    | nil => simp at h
    | cons x xs =>
      simp only [List.length_cons, Nat.succ.injEq] at h
      by_cases hp : p k <;>
        simp [filterByMask, List.countP_cons, hp, ih xs h]

theorem filterByMask_zip (p : α → Bool) :
    ∀ (key : List α) (xs : List β), key.length = xs.length →
      (key.filter p).zip (filterByMask (key.map p) xs) =
        (key.zip xs).filter (fun q => p q.1) := by
  intro key
  induction key with
  | nil => intro xs h; simp [filterByMask]
  | cons k ks ih =>
    intro xs h
    cases xs with
    | nil => simp at h
    | cons x xs =>
      simp only [List.length_cons, Nat.succ.injEq] at h
      by_cases hp : p k <;>
        simp [filterByMask, List.filter_cons, hp, ih xs h]

theorem filterByMask_all_true (p : α → Bool) :
    ∀ (key : List α) (xs : List β), key.length = xs.length →
      (∀ x ∈ key, p x = true) → filterByMask (key.map p) xs = xs := by
  intro key
  induction key with
  | nil =>
    intro xs h _
    cases xs with
    | nil => rfl
    | cons x xs => simp at h
  | cons k ks ih =>
    intro xs h hall
    cases xs with
    | nil => simp at h
    | cons x xs =>
      simp only [List.length_cons, Nat.succ.injEq] at h
      have hk := hall k (List.mem_cons_self _ _)
      simp only [List.map_cons, filterByMask, hk, if_true]
      rw [ih xs h (fun y hy => hall y (List.mem_cons_of_mem _ hy))]

/-! ### firstOccur lemmas (hash-grouper key order) -/

theorem firstOccurAux_subset : ∀ (l seen : List Value) (x : Value),
    x ∈ firstOccurAux seen l → x ∈ l := by
  intro l
  induction l with
  | nil => intro seen x hx; simp [firstOccurAux] at hx
  | cons v rest ih =>
    intro seen x hx
    by_cases hv : v ∈ seen
    · rw [firstOccurAux, if_pos hv] at hx
      exact List.mem_cons_of_mem _ (ih seen x hx)
    · rw [firstOccurAux, if_neg hv] at hx
      rcases List.mem_cons.mp hx with h | h
      · exact h ▸ List.mem_cons_self _ _
      · exact List.mem_cons_of_mem _ (ih (v :: seen) x h)

theorem firstOccurAux_not_mem_seen : ∀ (l seen : List Value) (x : Value),
    x ∈ firstOccurAux seen l → x ∉ seen := by
  intro l
  induction l with
  | nil => intro seen x hx; simp [firstOccurAux] at hx
  | cons v rest ih =>
    intro seen x hx
    by_cases hv : v ∈ seen
    · rw [firstOccurAux, if_pos hv] at hx
      exact ih seen x hx
    · rw [firstOccurAux, if_neg hv] at hx
      rcases List.mem_cons.mp hx with h | h
      · exact h ▸ hv
      · intro hxs
        exact ih (v :: seen) x h (List.mem_cons_of_mem _ hxs)

theorem firstOccur_nodup (l : List Value) : (firstOccur l).Nodup := by
  suffices h : ∀ (m seen : List Value), (firstOccurAux seen m).Nodup from h l []
  intro m
  induction m with
  | nil => intro seen; simp [firstOccurAux]
  | cons v rest ih =>
    intro seen
    by_cases hv : v ∈ seen
    · rw [firstOccurAux, if_pos hv]
      exact ih seen
    · rw [firstOccurAux, if_neg hv]
      refine List.nodup_cons.mpr ⟨fun hcontra => ?_, ih (v :: seen)⟩
      exact firstOccurAux_not_mem_seen rest (v :: seen) v hcontra (List.mem_cons_self _ _)

theorem firstOccur_sublist (l : List Value) : List.Sublist (firstOccur l) l := by
  suffices h : ∀ (m seen : List Value), List.Sublist (firstOccurAux seen m) m from h l []
  intro m
  induction m with
  | nil => intro seen; simp [firstOccurAux]
  | cons v rest ih =>
    intro seen
    by_cases hv : v ∈ seen
    · rw [firstOccurAux, if_pos hv]
      exact (ih seen).cons v
    · rw [firstOccurAux, if_neg hv]
      exact (ih (v :: seen)).cons₂ v

theorem mem_of_mem_firstOccur (l : List Value) (x : Value) (h : x ∈ firstOccur l) :
    x ∈ l :=
  firstOccurAux_subset l [] x h

theorem mem_firstOccur_of_mem (l : List Value) (x : Value) (hx : x ∈ l) :
    x ∈ firstOccur l := by
  suffices h : ∀ (m seen : List Value) (y : Value), y ∈ m → y ∉ seen →
      y ∈ firstOccurAux seen m from h l [] x hx (by simp)
  intro m
  induction m with
  | nil => intro seen y hy _; simp at hy
  | cons v rest ih =>
    intro seen y hy hys
    by_cases hv : v ∈ seen
    · rw [firstOccurAux, if_pos hv]
      rcases List.mem_cons.mp hy with h | h
      · exact absurd (h ▸ hv) hys
      · exact ih seen y h hys
    · rw [firstOccurAux, if_neg hv]
      by_cases hyv : y = v
      · exact hyv ▸ List.mem_cons_self _ _
      · rcases List.mem_cons.mp hy with h | h
        · exact absurd h hyv
        · exact List.mem_cons_of_mem _ (ih (v :: seen) y h (by simp [hys, hyv]))

/-! ### exceptMap lemmas -/

theorem exceptMap_ok_of_forall (f : α → Except Err β) :
    ∀ l : List α, (∀ x ∈ l, ∃ w, f x = .ok w) →
      ∃ ws, exceptMap f l = .ok ws ∧ List.Forall₂ (fun x w => f x = .ok w) l ws := by
  intro l
  induction l with
  | nil => exact fun _ => ⟨[], rfl, List.Forall₂.nil⟩
  | cons x xs ih =>
    intro h
    obtain ⟨w, hw⟩ := h x (List.mem_cons_self _ _)
    obtain ⟨ws, hws, hall⟩ := ih (fun y hy => h y (List.mem_cons_of_mem _ hy))
    exact ⟨w :: ws, by simp [exceptMap, hw, hws], List.Forall₂.cons hw hall⟩

/-! ### The modelled Arrow ordering is a total preorder -/

theorem vle_refl (a : Value) : vle a a = true := by
  cases a <;> simp [vle]

theorem vle_total (a b : Value) : vle a b = true ∨ vle b a = true := by
  cases a <;> cases b <;> simp [vle, vrank] <;> exact le_total _ _

theorem vle_trans {a b c : Value} (h1 : vle a b = true) (h2 : vle b c = true) :
    vle a c = true := by
  cases a <;> cases b <;> cases c <;>
    simp_all [vle, vrank] <;>
    exact le_trans h1 h2

theorem pairRel_total (le : Value → Value → Bool)
    (ht : ∀ a b, le a b = true ∨ le b a = true) (p q : Nat × Value) :
    pairRel le p q ∨ pairRel le q p := by
  by_cases h1 : le p.2 q.2 = true
  · by_cases h2 : le q.2 p.2 = true
    · rcases Nat.le_total p.1 q.1 with hi | hi
      · exact Or.inl ⟨h1, fun _ => hi⟩
      · exact Or.inr ⟨h2, fun _ => hi⟩
    · exact Or.inl ⟨h1, fun hc => absurd hc h2⟩
  · rcases ht p.2 q.2 with h | h
    · exact absurd h h1
    · exact Or.inr ⟨h, fun hc => absurd hc h1⟩

theorem pairRel_trans (le : Value → Value → Bool)
    (htr : ∀ a b c, le a b = true → le b c = true → le a c = true)
    (p q w : Nat × Value) (h1 : pairRel le p q) (h2 : pairRel le q w) :
    pairRel le p w := by
  refine ⟨htr _ _ _ h1.1 h2.1, fun hwp => ?_⟩
  have hqp : le q.2 p.2 = true := htr _ _ _ h2.1 hwp
  have hwq : le w.2 q.2 = true := htr _ _ _ hwp h1.1
  exact le_trans (h1.2 hqp) (h2.2 hwq)

theorem dirLe_total (asc : Bool) (a b : Value) :
    dirLe asc a b = true ∨ dirLe asc b a = true := by
  cases asc
  · exact vle_total b a
  · exact vle_total a b

theorem dirLe_trans (asc : Bool) (a b c : Value)
    (h1 : dirLe asc a b = true) (h2 : dirLe asc b c = true) : dirLe asc a c = true := by
  cases asc
  · exact vle_trans h2 h1
  · exact vle_trans h1 h2

theorem dirLe_refl (asc : Bool) (a : Value) : dirLe asc a a = true := by
  cases asc
  · exact vle_refl a
  · exact vle_refl a

/-! ### Sort: stability, permutation, failure modes -/

theorem sortPairs_mem_key (le : Value → Value → Bool) (key : List Value) :
    ∀ p ∈ sortPairs le key, key.getD p.1 (.int 0) = p.2 := by
  intro p hp
  have hmem : p ∈ key.enum := (List.perm_insertionSort _ _).mem_iff.mp hp
  have h2 := List.mem_enum_iff_getElem?.mp hmem
  simp [List.getD_eq_getElem?_getD, h2]

/-- Claim C6: `sort_table` applies one permutation of the row indices to
every column; the key column comes out ordered in the requested direction;
rows with equal keys keep their original relative order (stability); and the
result keeps the table's row count. -/
theorem sort_stable_perm
    (s : Store) (tn cn : String) (asc : Bool) (t : Table) (kc : Column)
    (hs : lookupA s tn = some t) (hwf : TableWf t) (hc : lookupA t cn = some kc) :
    ∃ d perm,
      sort_table s tn cn asc = .ok d ∧
      List.Perm perm (List.range (rowCount t)) ∧
      d = t.map (fun p => (p.1, perm.map (fun i => p.2.vals.getD i (.int 0)))) ∧
      lookupA d cn = some (perm.map (fun i => kc.vals.getD i (.int 0))) ∧
      List.Pairwise (fun a b => dirLe asc a b = true)
        (perm.map (fun i => kc.vals.getD i (.int 0))) ∧
      List.Pairwise
        (fun i j => kc.vals.getD i (.int 0) = kc.vals.getD j (.int 0) → i ≤ j) perm ∧
      ∀ q ∈ d, q.2.length = rowCount t := by
  have hlen : kc.vals.length = rowCount t := hwf.2.2 _ (mem_of_lookupA hc)
  haveI : IsTotal (Nat × Value) (pairRel (dirLe asc)) :=
    ⟨pairRel_total _ (dirLe_total asc)⟩
  haveI : IsTrans (Nat × Value) (pairRel (dirLe asc)) :=
    ⟨pairRel_trans _ (dirLe_trans asc)⟩
  have hsorted : List.Pairwise (pairRel (dirLe asc)) (sortPairs (dirLe asc) kc.vals) :=
    List.sorted_insertionSort _ _
  have hpe : List.Perm (sortPairs (dirLe asc) kc.vals) kc.vals.enum :=
    List.perm_insertionSort _ _
  have hkey := sortPairs_mem_key (dirLe asc) kc.vals
  refine ⟨_, (sortPairs (dirLe asc) kc.vals).map Prod.fst,
    by simp [sort_table, hs, hc], ?_, rfl, ?_, ?_, ?_, ?_⟩
  · have h1 := hpe.map Prod.fst
    rwa [List.enum_map_fst, hlen] at h1
  · have h2 := lookupA_map_snd t
      (fun c : Column =>
        ((sortPairs (dirLe asc) kc.vals).map Prod.fst).map
          (fun i => c.vals.getD i (.int 0)))
      cn
    simpa [hc] using h2
  · have hmapeq :
        ((sortPairs (dirLe asc) kc.vals).map Prod.fst).map
            (fun i => kc.vals.getD i (.int 0)) =
          (sortPairs (dirLe asc) kc.vals).map Prod.snd := by
      rw [List.map_map]
      exact List.map_congr_left (fun p hp => hkey p hp)
    rw [hmapeq]
    exact List.pairwise_map.mpr (hsorted.imp (fun h => h.1))
  · refine List.pairwise_map.mpr ?_
    have hmem := List.Pairwise.and_mem.mp hsorted
    refine hmem.imp ?_
    rintro p q ⟨hp, hq, hrel⟩ he
    refine hrel.2 ?_
    have hqp : q.2 = p.2 := by rw [← hkey p hp, ← hkey q hq, he]
    rw [hqp]
    exact dirLe_refl asc p.2
  · intro q hq
    obtain ⟨p, hp, hpq⟩ := List.mem_map.mp hq
    have hl : ((sortPairs (dirLe asc) kc.vals).map Prod.fst).length = rowCount t := by
      rw [List.length_map, hpe.length_eq, List.enum_length, hlen]
    rw [← hpq]
    simpa using hl

/-- Claim C6 witness: the sort theorem applied to a two-column table sorted
descending on its second column. -/
theorem sort_stable_perm_witness :
    ∃ d perm,
      sort_table [("T", [("id", ⟨.int64, [.int 1, .int 2, .int 3]⟩),
        ("v", ⟨.int64, [.int 10, .int 20, .int 30]⟩)])] "T" "v" false = .ok d ∧
      List.Perm perm (List.range 3) ∧
      List.Pairwise (fun a b => dirLe false a b = true)
        (perm.map (fun i =>
          ([Value.int 10, .int 20, .int 30] : List Value).getD i (.int 0))) := by
  obtain ⟨d, perm, h1, h2, _, _, h5, _, _⟩ :=
    sort_stable_perm
      [("T", [("id", ⟨.int64, [.int 1, .int 2, .int 3]⟩),
        ("v", ⟨.int64, [.int 10, .int 20, .int 30]⟩)])]
      "T" "v" false
      [("id", ⟨.int64, [.int 1, .int 2, .int 3]⟩),
        ("v", ⟨.int64, [.int 10, .int 20, .int 30]⟩)]
      ⟨.int64, [.int 10, .int 20, .int 30]⟩ rfl (by decide) rfl
  exact ⟨d, perm, h1, h2, h5⟩

/-- Claim C7: `sort_table` fails exactly with `notFound`, and only when the
table or the sort column is absent; on any existing table and column it
succeeds. -/
theorem sort_notFound_only (s : Store) (tn cn : String) (asc : Bool) :
    (lookupA s tn = none → sort_table s tn cn asc = .error .notFound) ∧
    (∀ t, lookupA s tn = some t → lookupA t cn = none →
      sort_table s tn cn asc = .error .notFound) ∧
    (∀ t kc, lookupA s tn = some t → lookupA t cn = some kc →
      ∃ d, sort_table s tn cn asc = .ok d) ∧
    (∀ e, sort_table s tn cn asc = .error e → e = .notFound) := by
  refine ⟨?_, ?_, ?_, ?_⟩
  · intro h; simp [sort_table, h]
  · intro t h1 h2; simp [sort_table, h1, h2]
  · intro t kc h1 h2
    exact ⟨t.map (fun p => (p.1,
      ((sortPairs (dirLe asc) kc.vals).map Prod.fst).map (fun i => p.2.vals.getD i (.int 0)))),
      by simp [sort_table, h1, h2]⟩
  · intro e he
    cases h1 : lookupA s tn with
    | none =>
      have h3 : (Except.error Err.notFound : Except Err PyDict) = Except.error e := by
        rw [← he]; simp [sort_table, h1]
      injection h3 with h4
      exact h4.symm
    | some t =>
      cases h2 : lookupA t cn with
      | none =>
        have h3 : (Except.error Err.notFound : Except Err PyDict) = Except.error e := by
          rw [← he]; simp [sort_table, h1, h2]
        injection h3 with h4
        exact h4.symm
      | some kc =>
        have h3 : sort_table s tn cn asc =
            .ok (t.map (fun p => (p.1,
              ((sortPairs (dirLe asc) kc.vals).map Prod.fst).map
                (fun i => p.2.vals.getD i (.int 0))))) := by
          simp [sort_table, h1, h2]
        rw [he] at h3
        exact Except.noConfusion h3

/-- Claim C7 witness: the three modes at concrete stores. -/
theorem sort_notFound_only_witness :
    sort_table [] "missing" "c" true = .error .notFound ∧
    sort_table [("T", [("a", ⟨.int64, [.int 1]⟩)])] "T" "b" true = .error .notFound ∧
    ∃ d, sort_table [("T", [("a", ⟨.int64, [.int 1]⟩)])] "T" "a" true = .ok d := by
  refine ⟨(sort_notFound_only [] "missing" "c" true).1 rfl,
    (sort_notFound_only [("T", [("a", ⟨.int64, [.int 1]⟩)])] "T" "b" true).2.1 _ rfl rfl,
    (sort_notFound_only [("T", [("a", ⟨.int64, [.int 1]⟩)])] "T" "a" true).2.2.1 _ _ rfl rfl⟩

/-! ### Filter: soundness, completeness, order, idempotence -/

/-- Claim C3: every row of the filter result satisfies the predicate, every
satisfying row of the source appears, the result columns are subsequences of
the source columns in original order (with row pairing preserved against the
key column), and every result column's length is the count of true mask
positions. -/
theorem filter_soundness
    (s : Store) (tn cn cond : String) (v : Value) (t : Table) (kc : Column) (op : CmpOp)
    (hs : lookupA s tn = some t) (hwf : TableWf t) (hc : lookupA t cn = some kc)
    (hop : condOp cond = some op) (hcompat : valCompat v kc.dtype = true) :
    ∃ d, filter_table s tn cn cond v = .ok d ∧
      d.map Prod.fst = t.map Prod.fst ∧
      lookupA d cn = some (kc.vals.filter (fun x => applyCmp op x v)) ∧
      (∀ x ∈ kc.vals.filter (fun x => applyCmp op x v), applyCmp op x v = true) ∧
      (∀ n col, lookupA t n = some col →
        ∃ dvs, lookupA d n = some dvs ∧ List.Sublist dvs col.vals ∧
          (kc.vals.filter (fun x => applyCmp op x v)).zip dvs =
            (kc.vals.zip col.vals).filter (fun q => applyCmp op q.1 v)) ∧
      ∀ q ∈ d, q.2.length = kc.vals.countP (fun x => applyCmp op x v) := by
  have hlenk : kc.vals.length = rowCount t := hwf.2.2 _ (mem_of_lookupA hc)
  refine ⟨t.map (fun p => (p.1,
      filterByMask (kc.vals.map (fun x => applyCmp op x v)) p.2.vals)),
    ?_, by simp, ?_, ?_, ?_, ?_⟩
  · simp [filter_table, filterT, hs, hc, hcompat, hop]
  · have hl := lookupA_map_snd t
      (fun c : Column => filterByMask (kc.vals.map (fun x => applyCmp op x v)) c.vals) cn
    simpa [hc, filterByMask_map_self] using hl
  · intro x hx
    exact (List.mem_filter.mp hx).2
  · intro n col hcol
    have hlenc : col.vals.length = rowCount t := hwf.2.2 _ (mem_of_lookupA hcol)
    have hl := lookupA_map_snd t
      (fun c : Column => filterByMask (kc.vals.map (fun x => applyCmp op x v)) c.vals) n
    refine ⟨filterByMask (kc.vals.map (fun x => applyCmp op x v)) col.vals,
      by simpa [hcol] using hl, filterByMask_sublist _ _,
      filterByMask_zip _ kc.vals col.vals (by rw [hlenk, hlenc])⟩
  · intro q hq
    obtain ⟨p, hp, hpq⟩ := List.mem_map.mp hq
    have hlenp : p.2.vals.length = rowCount t := hwf.2.2 _ hp
    rw [← hpq]
    exact length_filterByMask _ kc.vals p.2.vals (by rw [hlenk, hlenp])

/-- Claim C3 witness: the spec scenario, filtering `val > 15` out of
`{id:[1,2,3], val:[10,20,30]}`. -/
theorem filter_soundness_witness :
    ∃ d, filter_table
        [("T", [("id", ⟨.int64, [.int 1, .int 2, .int 3]⟩),
          ("val", ⟨.int64, [.int 10, .int 20, .int 30]⟩)])]
        "T" "val" ">" (.int 15) = .ok d ∧
      lookupA d "val" = some [.int 20, .int 30] ∧
      ∀ q ∈ d, q.2.length = 2 := by
  obtain ⟨d, h1, _, h3, _, _, h6⟩ :=
    filter_soundness
      [("T", [("id", ⟨.int64, [.int 1, .int 2, .int 3]⟩),
        ("val", ⟨.int64, [.int 10, .int 20, .int 30]⟩)])]
      "T" "val" ">" (.int 15)
      [("id", ⟨.int64, [.int 1, .int 2, .int 3]⟩),
        ("val", ⟨.int64, [.int 10, .int 20, .int 30]⟩)]
      ⟨.int64, [.int 10, .int 20, .int 30]⟩ .gt rfl (by decide) rfl rfl rfl
  refine ⟨d, h1, ?_, ?_⟩
  · rw [h3]
    decide
  · intro q hq
    rw [h6 q hq]
    decide

theorem coerceTo_eq_self {d : DType} {v : Value} (h : dtypeOfValue v = d) :
    coerceTo d v = v := by
  cases v <;> cases d <;> simp_all [coerceTo, dtypeOfValue]

theorem mkColumn_homogeneous (vs : List Value) (d : DType)
    (h : ∀ v ∈ vs, dtypeOfValue v = d) (hne : vs ≠ []) : mkColumn vs = .ok ⟨d, vs⟩ := by
  cases vs with
  | nil => exact absurd rfl hne
  | cons x xs =>
    have hx : dtypeOfValue x = d := h x (List.mem_cons_self _ _)
    have hall : ∀ w ∈ xs, dtypeOfValue w = d := fun w hw =>
      h w (List.mem_cons_of_mem _ hw)
    have hmap : (x :: xs).map (coerceTo d) = x :: xs :=
      List.map_congr_left (fun v hv => coerceTo_eq_self (h v hv)) |>.trans (List.map_id _)
    have hcond : (xs.all fun w => decide (dtypeOfValue w = dtypeOfValue x)) = true := by
      rw [List.all_eq_true]
      intro w hw
      exact decide_eq_true (by rw [hall w hw, hx])
    have hinf : inferDType (x :: xs) = .ok d := by
      show (if (xs.all fun w => decide (dtypeOfValue w = dtypeOfValue x)) = true
          then Except.ok (dtypeOfValue x)
          else if ((x :: xs).all fun w => isNumeric (dtypeOfValue w)) = true
            then Except.ok DType.float64
            else Except.error Err.typeMismatch) = .ok d
      rw [hcond]
      simp [hx]
    have hmk : mkColumn (x :: xs) = .ok ⟨d, (x :: xs).map (coerceTo d)⟩ := by
      unfold mkColumn
      rw [hinf]
    rw [hmk, hmap]

theorem tableOfPydict_of_ok (t2 : Table) (h : ∀ p ∈ t2, mkColumn p.2.vals = .ok p.2) :
    tableOfPydict (t2.map (fun p => (p.1, p.2.vals))) = .ok t2 := by
  induction t2 with
  | nil => rfl
  | cons p ps ih =>
    have hp := h p (List.mem_cons_self _ _)
    have hps := ih (fun q hq => h q (List.mem_cons_of_mem _ hq))
    unfold tableOfPydict at hps ⊢
    simp [exceptMap, hp, hps]

/-- Claim C4 counterexample: on the registered table `{a:[1]}` the filter
`a == 2` returns the empty result `{a: []}`; re-registering that result (the
only way the engine can filter it again) infers the `null` dtype for the
empty column, so the second identical filter fails with a type mismatch
instead of returning the first result again. -/
theorem filter_idem_cex :
    filter_table [("t", [("a", ⟨.int64, [.int 1]⟩)])] "t" "a" "==" (.int 2) =
      .ok [("a", [])] ∧
    (do
      let d ← filter_table [("t", [("a", ⟨.int64, [.int 1]⟩)])] "t" "a" "==" (.int 2)
      let s2 ← create_table [("t", [("a", ⟨.int64, [.int 1]⟩)])] "tmp" d
      filter_table s2 "tmp" "a" "==" (.int 2)) = .error .typeMismatch := by
  exact ⟨rfl, rfl⟩

/-- Claim C4 amended: whenever the first filter keeps at least one row,
rebuilding a table from its result and applying the same filter returns the
same result. -/
theorem filter_idem_of_nonempty
    (t : Table) (cn cond : String) (v : Value) (kc : Column) (op : CmpOp) (d : PyDict)
    (hwf : TableWf t) (hc : lookupA t cn = some kc) (hop : condOp cond = some op)
    (hcompat : valCompat v kc.dtype = true)
    (hd : filterT t cn cond v = .ok d)
    (hne : kc.vals.countP (fun x => applyCmp op x v) ≠ 0) :
    Except.bind (tableOfPydict d) (fun t2 => filterT t2 cn cond v) = .ok d := by
  have hlenk : kc.vals.length = rowCount t := hwf.2.2 _ (mem_of_lookupA hc)
  simp only [filterT, hc, hcompat, Bool.not_true, if_false, hop] at hd
  rw [if_neg (by simp)] at hd
  have hdd : d = t.map (fun p => (p.1,
      filterByMask (kc.vals.map (fun x => applyCmp op x v)) p.2.vals)) :=
    (Except.ok.inj hd).symm
  set t2 : Table := t.map (fun p => (p.1,
    Column.mk p.2.dtype (filterByMask (kc.vals.map (fun x => applyCmp op x v)) p.2.vals)))
    with ht2
  have hok : ∀ p ∈ t2, mkColumn p.2.vals = .ok p.2 := by
    intro p hp
    obtain ⟨q, hq, hqp⟩ := List.mem_map.mp hp
    have hlenq : q.2.vals.length = rowCount t := hwf.2.2 _ hq
    have hfl : (filterByMask (kc.vals.map (fun x => applyCmp op x v)) q.2.vals).length =
        kc.vals.countP (fun x => applyCmp op x v) :=
      length_filterByMask _ kc.vals q.2.vals (by rw [hlenk, hlenq])
    have hfne : filterByMask (kc.vals.map (fun x => applyCmp op x v)) q.2.vals ≠ [] := by
      intro hcontra
      rw [hcontra] at hfl
      exact hne hfl.symm
    have hhom : ∀ w ∈ filterByMask (kc.vals.map (fun x => applyCmp op x v)) q.2.vals,
        dtypeOfValue w = q.2.dtype := fun w hw =>
      hwf.2.1 _ hq w ((filterByMask_sublist _ _).mem hw)
    rw [← hqp]
    exact mkColumn_homogeneous _ _ hhom hfne
  have hpyd : tableOfPydict d = .ok t2 := by
    have hd2 : d = t2.map (fun p => (p.1, p.2.vals)) := by
      rw [hdd, ht2, List.map_map]
      rfl
    rw [hd2]
    exact tableOfPydict_of_ok t2 hok
  rw [hpyd]
  show filterT t2 cn cond v = .ok d
  have hlook : lookupA t2 cn =
      some (Column.mk kc.dtype (filterByMask (kc.vals.map (fun x => applyCmp op x v)) kc.vals)) := by
    have hl := lookupA_map_snd t
      (fun c : Column =>
        Column.mk c.dtype (filterByMask (kc.vals.map (fun x => applyCmp op x v)) c.vals)) cn
    simpa [hc] using hl
  rw [filterByMask_map_self] at hlook
  simp only [filterT, hlook, hcompat, Bool.not_true, if_false, hop]
  rw [if_neg (by simp)]
  have hcols : ∀ q ∈ t,
      filterByMask ((kc.vals.filter (fun x => applyCmp op x v)).map (fun x => applyCmp op x v))
          (filterByMask (kc.vals.map (fun x => applyCmp op x v)) q.2.vals) =
        filterByMask (kc.vals.map (fun x => applyCmp op x v)) q.2.vals := by
    intro q hq
    have hlenq : q.2.vals.length = rowCount t := hwf.2.2 _ hq
    refine filterByMask_all_true _ _ _ ?_ ?_
    · rw [length_filterByMask (fun x => applyCmp op x v) kc.vals q.2.vals (by rw [hlenk, hlenq]),
        List.countP_eq_length_filter]
    · intro x hx
      exact (List.mem_filter.mp hx).2
  rw [hdd, ht2]
  simp only [List.map_map]
  refine congrArg Except.ok (List.map_congr_left ?_)
  intro q hq
  simp only [Function.comp_apply]
  rw [hcols q hq]

/-- Claim C4 amended witness: refiltering the non-empty result of
`a == 1` over `{a:[1,2]}` reproduces it. -/
theorem filter_idem_of_nonempty_witness :
    Except.bind (tableOfPydict [("a", [Value.int 1])])
      (fun t2 => filterT t2 "a" "==" (.int 1)) = .ok [("a", [Value.int 1])] :=
  filter_idem_of_nonempty [("a", ⟨.int64, [.int 1, .int 2]⟩)] "a" "==" (.int 1)
    ⟨.int64, [.int 1, .int 2]⟩ .eq [("a", [Value.int 1])]
    (by decide) rfl rfl rfl rfl (by decide)

/-! ### Join: the spec scenario and the join-type strings -/

/-- The two tables of the spec's full-outer-join scenario, as `create_table`
registers them. -/
def joinStore : Store :=
  [("left_t", [("id", ⟨.int64, [.int 1, .int 2, .int 3]⟩),
    ("v", ⟨.int64, [.int 10, .int 20, .int 30]⟩)]),
   ("right_t", [("id", ⟨.int64, [.int 2, .int 3, .int 4]⟩),
    ("v", ⟨.int64, [.int 200, .int 300, .int 400]⟩)])]

/-- What the code actually returns for the scenario's full outer join: the
key column is coalesced, the two colliding `v` columns collapse in
`to_pydict` keeping the right side, and absent cells are null. -/
def fullOuterResult : JDict :=
  [("id", [some (.int 1), some (.int 2), some (.int 3), some (.int 4)]),
   ("v", [none, some (.int 200), some (.int 300), some (.int 400)])]

/-- Claim C1 counterexample: in the full outer join of the scenario tables
the absent sides are null (`none`), not dtype sentinels, and the left `v`
column is gone entirely (both tables name it `v`, and `to_pydict` keeps the
right one), so no row carries the pair (10, 200). -/
theorem join_full_outer_cex :
    join_tables joinStore "left_t" "right_t" ["id"] ["id"] "full outer" =
      .ok fullOuterResult ∧
    lookupA fullOuterResult "v" =
      some [none, some (.int 200), some (.int 300), some (.int 400)] ∧
    ([none, some (.int 200), some (.int 300), some (.int 400)] :
        List (Option Value)) ≠
      [some (.int 0), some (.int 200), some (.int 300), some (.int 400)] := by
  exact ⟨rfl, rfl, by decide⟩

/-- Claim C1 amended: the full outer join of the scenario emits 4 rows with
coalesced keys 1,2,3,4; since both value columns are named `v`, `to_pydict`
keeps only the right-side one; absent cells are null, not sentinels. -/
theorem join_full_outer_result :
    join_tables joinStore "left_t" "right_t" ["id"] ["id"] "full outer" =
      .ok fullOuterResult ∧
    fullOuterResult.map Prod.fst = ["id", "v"] ∧
    fullOuterResult.map (fun q => q.2.length) = [4, 4] := by
  exact ⟨rfl, rfl, rfl⟩

/-- Claim C2: the guard list of `join_tables` accepts "left" and "right",
but `pyarrow` knows only "left outer"/"right outer", so both fail inside the
join call instead of completing; the spelling "full_outer" never passes the
guard (the code's string is "full outer"); only "inner" and "full outer"
ever complete. -/
theorem join_type_left_bug :
    join_tables joinStore "left_t" "right_t" ["id"] ["id"] "left" =
      .error .arrowUnsupportedJoinType ∧
    join_tables joinStore "left_t" "right_t" ["id"] ["id"] "right" =
      .error .arrowUnsupportedJoinType ∧
    join_tables joinStore "left_t" "right_t" ["id"] ["id"] "full_outer" =
      .error .unsupportedJoinType ∧
    join_tables joinStore "left_t" "right_t" ["id"] ["id"] "inner" =
      .ok [("id", [some (.int 2), some (.int 3)]),
        ("v", [some (.int 200), some (.int 300)])] := by
  exact ⟨rfl, rfl, rfl, rfl⟩

/-! ### Aggregation over an empty column -/

/-- The store after `create_table("e", {"a": []})`: the empty column infers
the `null` dtype. -/
def emptyStore : Store := [("e", [("a", ⟨.null, []⟩)])]

/-- Claim C5 counterexample: `sum` of the empty column does not return 0 —
it fails the numeric gate (the empty column's dtype is `null`); `min` and
`max` return null (`None`), they do not raise any error, and no
`EmptyAggregation` error exists in the code. -/
theorem aggregate_empty_cex :
    aggregate_table emptyStore "e" "a" "sum" = .error .typeMismatch ∧
    aggregate_table emptyStore "e" "a" "sum" ≠ .ok (some (.int 0)) ∧
    aggregate_table emptyStore "e" "a" "min" = .ok none ∧
    aggregate_table emptyStore "e" "a" "max" = .ok none := by
  refine ⟨rfl, fun hcontra => ?_, rfl, rfl⟩
  exact Except.noConfusion
    (show (Except.error Err.typeMismatch : Except Err (Option Value)) =
      .ok (some (.int 0)) from hcontra)

/-- Claim C5 amended: over the only reachable empty column (dtype `null`),
`sum` and `mean` fail with a type mismatch from the numeric gate, `count`
returns 0, and `min`/`max` return `None`. -/
theorem aggregate_empty_amended :
    create_table [] "e" [("a", [])] = .ok emptyStore ∧
    aggregate_table emptyStore "e" "a" "sum" = .error .typeMismatch ∧
    aggregate_table emptyStore "e" "a" "mean" = .error .typeMismatch ∧
    aggregate_table emptyStore "e" "a" "count" = .ok (some (.int 0)) ∧
    aggregate_table emptyStore "e" "a" "min" = .ok none ∧
    aggregate_table emptyStore "e" "a" "max" = .ok none := by
  exact ⟨rfl, rfl, rfl, rfl, rfl, rfl⟩

/-! ### Group by -/

/-- The spec's group-by scenario table: ids `[1,1,2]`, vals `[5,7,9]`. -/
def gStore : Store :=
  [("G", [("id", ⟨.int64, [.int 1, .int 1, .int 2]⟩),
    ("val", ⟨.int64, [.int 5, .int 7, .int 9]⟩)])]

/-- What the code actually returns for the scenario: the aggregate column is
renamed `val_sum`. -/
def gRes : PyDict := [("id", [.int 1, .int 2]), ("val_sum", [.int 12, .int 9])]

/-- Claim C8 counterexample: the scenario's group-by result has no column
named `val` — the aggregated column is named `val_sum` — so the result is
not `{id:[1,2], val:[12,9]}`. -/
theorem group_by_cex :
    group_by gStore "G" "id" "val" "sum" = .ok gRes ∧
    lookupA gRes "val" = none ∧
    lookupA gRes "id" = some [.int 1, .int 2] ∧
    lookupA gRes "val_sum" = some [.int 12, .int 9] := by
  exact ⟨rfl, rfl, rfl, rfl⟩

/-- Claim C8 amended: `group_by` returns exactly two columns — the distinct
key column under the group column's name and the aggregated column renamed
`agg_column` + "_" + `agg_func` — with one row per distinct key, rows in
first-occurrence order of the keys, and each output aggregate computed over
exactly the rows of its key. -/
theorem group_by_spec
    (s : Store) (tn gc ac fn : String) (t : Table) (gcol acol : Column)
    (hs : lookupA s tn = some t)
    (hfn : (["sum", "mean", "min", "max", "count"].contains fn) = true)
    (hg : lookupA t gc = some gcol) (ha : lookupA t ac = some acol)
    (hok : ∀ k ∈ firstOccur gcol.vals,
      ∃ w, aggOf fn acol.dtype (selectBy gcol.vals acol.vals k) = .ok w) :
    ∃ aggs,
      group_by s tn gc ac fn = .ok [(gc, firstOccur gcol.vals), (aggName ac fn, aggs)] ∧
      List.Forall₂ (fun k w => aggOf fn acol.dtype (selectBy gcol.vals acol.vals k) = .ok w)
        (firstOccur gcol.vals) aggs ∧
      aggs.length = (firstOccur gcol.vals).length ∧
      (firstOccur gcol.vals).Nodup ∧
      List.Sublist (firstOccur gcol.vals) gcol.vals ∧
      ∀ x, x ∈ firstOccur gcol.vals ↔ x ∈ gcol.vals := by
  obtain ⟨aggs, hm, hf⟩ := exceptMap_ok_of_forall _ _ hok
  refine ⟨aggs, ?_, hf, hf.length_eq.symm, firstOccur_nodup _, firstOccur_sublist _,
    fun x => ⟨mem_of_mem_firstOccur _ x, mem_firstOccur_of_mem _ x⟩⟩
  have h5 : fn = "sum" ∨ fn = "mean" ∨ fn = "min" ∨ fn = "max" ∨ fn = "count" := by
    simpa using hfn
  simp [group_by, hs, hfn, hg, ha, hm]
  intro h1 h2 h3 h4
  rcases h5 with h | h | h | h | h
  · exact absurd h h1
  · exact absurd h h2
  · exact absurd h h3
  · exact absurd h h4
  · exact h

/-- Claim C8 amended witness: the scenario, with the renamed column. -/
theorem group_by_spec_witness :
    ∃ aggs,
      group_by gStore "G" "id" "val" "sum" =
        .ok [("id", firstOccur [Value.int 1, .int 1, .int 2]), ("val_sum", aggs)] ∧
      aggs.length = (firstOccur [Value.int 1, .int 1, .int 2]).length := by
  obtain ⟨aggs, h1, _, h3, _⟩ :=
    group_by_spec gStore "G" "id" "val" "sum"
      [("id", ⟨.int64, [.int 1, .int 1, .int 2]⟩), ("val", ⟨.int64, [.int 5, .int 7, .int 9]⟩)]
      ⟨.int64, [.int 1, .int 1, .int 2]⟩ ⟨.int64, [.int 5, .int 7, .int 9]⟩
      rfl rfl rfl rfl
      (by
        intro k hk
        have hfo : firstOccur [Value.int 1, .int 1, .int 2] = [Value.int 1, .int 2] := rfl
        rw [hfo] at hk
        rcases List.mem_cons.mp hk with h | h
        · exact ⟨.int 12, by rw [h]; rfl⟩
        · rcases List.mem_cons.mp h with h2 | h2
          · exact ⟨.int 9, by rw [h2]; rfl⟩
          · simp at h2)
  exact ⟨aggs, h1, h3⟩

/-! ### create_table: registration effect -/

theorem mkColumn_ok_of_homog (vs : List Value)
    (h : ∀ v ∈ vs, ∀ w ∈ vs, dtypeOfValue v = dtypeOfValue w) :
    ∃ c, mkColumn vs = .ok c := by
  cases vs with
  | nil => exact ⟨⟨.null, []⟩, rfl⟩
  | cons x xs =>
    have hcond : (xs.all fun w => decide (dtypeOfValue w = dtypeOfValue x)) = true := by
      rw [List.all_eq_true]
      intro w hw
      exact decide_eq_true
        (h w (List.mem_cons_of_mem _ hw) x (List.mem_cons_self _ _))
    have hinf : inferDType (x :: xs) = .ok (dtypeOfValue x) := by
      show (if (xs.all fun w => decide (dtypeOfValue w = dtypeOfValue x)) = true
          then Except.ok (dtypeOfValue x)
          else if ((x :: xs).all fun w => isNumeric (dtypeOfValue w)) = true
            then Except.ok DType.float64
            else Except.error Err.typeMismatch) = .ok (dtypeOfValue x)
      rw [hcond]
      rfl
    refine ⟨⟨dtypeOfValue x, (x :: xs).map (coerceTo (dtypeOfValue x))⟩, ?_⟩
    unfold mkColumn
    rw [hinf]

theorem tableOfPydict_of_homog (data : PyDict)
    (hh : ∀ p ∈ data, ∀ v ∈ p.2, ∀ w ∈ p.2, dtypeOfValue v = dtypeOfValue w) :
    ∃ t, tableOfPydict data = .ok t := by
  induction data with
  | nil => exact ⟨[], rfl⟩
  | cons p ps ih =>
    obtain ⟨c, hc⟩ := mkColumn_ok_of_homog p.2 (hh p (List.mem_cons_self _ _))
    obtain ⟨t, ht⟩ := ih (fun q hq => hh q (List.mem_cons_of_mem _ hq))
    have ht2 : exceptMap (fun q : String × List Value =>
        match mkColumn q.2 with
        | .error e => Except.error e
        | .ok c => Except.ok (q.1, c)) ps = .ok t := ht
    exact ⟨(p.1, c) :: t, by simp [tableOfPydict, exceptMap, hc, ht2]⟩

/-- What `create_table` does on valid input: it builds the Arrow table and
registers it under `name` (replacing any previous entry in place, leaving
every other entry unchanged), returning nothing else. -/
theorem create_table_effect
    (s : Store) (name : String) (data : PyDict)
    (hn : name ≠ "") (hd : data ≠ []) (hl : sameLengths data = true)
    (hh : ∀ p ∈ data, ∀ v ∈ p.2, ∀ w ∈ p.2, dtypeOfValue v = dtypeOfValue w) :
    ∃ t, tableOfPydict data = .ok t ∧
      create_table s name data = .ok (updateA s name t) ∧
      lookupA (updateA s name t) name = some t ∧
      ∀ m, m ≠ name → lookupA (updateA s name t) m = lookupA s m := by
  obtain ⟨t, ht⟩ := tableOfPydict_of_homog data hh
  refine ⟨t, ht, ?_, lookupA_updateA_self s name t,
    fun m hm => lookupA_updateA_ne s name m t hm⟩
  simp [create_table, hn, hd, hl, ht]

/-- Claim C9 counterexample: `create_table` on the empty store does register
the new table — the store after the call is not the store before it. -/
theorem create_table_registers_cex :
    create_table [] "t" [("a", [.int 1])] =
      .ok [("t", [("a", ⟨.int64, [.int 1]⟩)])] ∧
    ([("t", [("a", (⟨.int64, [.int 1]⟩ : Column))])] : Store) ≠ ([] : Store) := by
  exact ⟨rfl, by decide⟩

/-- Claim C9 amended: on valid input `create_table` builds the Arrow table
and registers it in the store under `name` (this is its side effect; the
Python method returns nothing); every other entry is unchanged. -/
theorem create_table_registers
    (s : Store) (name : String) (data : PyDict)
    (hn : name ≠ "") (hd : data ≠ []) (hl : sameLengths data = true)
    (hh : ∀ p ∈ data, ∀ v ∈ p.2, ∀ w ∈ p.2, dtypeOfValue v = dtypeOfValue w) :
    ∃ t, create_table s name data = .ok (updateA s name t) ∧
      lookupA (updateA s name t) name = some t ∧
      ∀ m, m ≠ name → lookupA (updateA s name t) m = lookupA s m := by
  obtain ⟨t, _, h2, h3, h4⟩ := create_table_effect s name data hn hd hl hh
  exact ⟨t, h2, h3, h4⟩

/-- Claim C9 amended witness. -/
theorem create_table_registers_witness :
    ∃ t, create_table [] "t" [("a", [Value.int 1])] = .ok (updateA [] "t" t) ∧
      lookupA (updateA ([] : Store) "t" t) "t" = some t := by
  obtain ⟨t, h1, h2, _⟩ :=
    create_table_registers [] "t" [("a", [Value.int 1])]
      (by decide) (by decide) rfl (by decide)
  exact ⟨t, h1, h2⟩

/-- Claim C10: `create_table` with a name already registered raises no
error: it succeeds, silently replaces the entry under that name with the
table built from the new data, and leaves every other entry unchanged. -/
theorem create_table_overwrites
    (s : Store) (name : String) (data : PyDict) (told : Table)
    (_hold : lookupA s name = some told)
    (hn : name ≠ "") (hd : data ≠ []) (hl : sameLengths data = true)
    (hh : ∀ p ∈ data, ∀ v ∈ p.2, ∀ w ∈ p.2, dtypeOfValue v = dtypeOfValue w) :
    ∃ t s2, create_table s name data = .ok s2 ∧
      tableOfPydict data = .ok t ∧
      lookupA s2 name = some t ∧
      ∀ m, m ≠ name → lookupA s2 m = lookupA s m := by
  obtain ⟨t, h1, h2, h3, h4⟩ := create_table_effect s name data hn hd hl hh
  exact ⟨t, updateA s name t, h2, h1, h3, h4⟩

/-- Claim C10 witness: re-creating `"t"` over an existing `"t"` succeeds and
replaces it. -/
theorem create_table_overwrites_witness :
    ∃ t s2,
      create_table [("t", [("a", ⟨.int64, [.int 5]⟩)])] "t" [("b", [Value.int 7])] =
        .ok s2 ∧
      lookupA s2 "t" = some t := by
  obtain ⟨t, s2, h1, _, h3, _⟩ :=
    create_table_overwrites [("t", [("a", ⟨.int64, [.int 5]⟩)])] "t"
      [("b", [Value.int 7])] [("a", ⟨.int64, [.int 5]⟩)]
      rfl (by decide) (by decide) rfl (by decide)
  exact ⟨t, s2, h1, h3⟩

end MiniArrow
